import Mathlib

/-!
Verification development for the CHIP-8 emulator core in `chip8_complete.py`
(class `Chip8CPU` and its helpers).  The machine state and every instruction
handler are translated directly from the Python source: registers, memory and
the framebuffer become total functions out of `Nat`, in-place mutation becomes
explicit state passing, and a Python `IndexError` on an out-of-range
`bytearray` access is modelled by returning `none`.
-/

set_option maxRecDepth 10000

namespace Chip8Emu

/-- Pointwise update of a register/memory map (Python `arr[a] = b`). -/
def upd (f : Nat → Nat) (a b : Nat) : Nat → Nat :=
  fun x => if x = a then b else f x

/-- The framebuffer: row index → column index → pixel value. -/
abbrev Disp := Nat → Nat → Nat

/-- Pointwise update of the framebuffer (Python `display[r][c] = val`). -/
def updD (d : Disp) (r c val : Nat) : Disp :=
  fun p q => if p = r ∧ q = c then val else d p q

/-- `EmulatorConfig` from chip8_complete.py (defaults are the COSMAC quirks). -/
structure EmulatorConfig where
  memory_size : Nat := 4096
  program_start : Nat := 0x200
  font_start : Nat := 0x050
  hires_font_start : Nat := 0x0A0
  lores_width : Nat := 64
  lores_height : Nat := 32
  hires_width : Nat := 128
  hires_height : Nat := 64
  cpu_frequency : Nat := 500
  timer_frequency : Nat := 60
  stack_size : Nat := 16
  num_registers : Nat := 16
  num_keys : Nat := 16
  quirk_vf_reset : Bool := true
  quirk_memory_increment : Bool := true
  quirk_display_wait : Bool := true
  quirk_clipping : Bool := true
  quirk_shifting : Bool := false
  quirk_jumping : Bool := false

/-- The default configuration built by `EmulatorConfig()`. -/
def defaultCfg : EmulatorConfig := {}

/-- `FONT_4X5`: the 80-byte standard font placed at 0x050. -/
def FONT_4X5 : List Nat :=
  [0xF0, 0x90, 0x90, 0x90, 0xF0,
   0x20, 0x60, 0x20, 0x20, 0x70,
   0xF0, 0x10, 0xF0, 0x80, 0xF0,
   0xF0, 0x10, 0xF0, 0x10, 0xF0,
   0x90, 0x90, 0xF0, 0x10, 0x10,
   0xF0, 0x80, 0xF0, 0x10, 0xF0,
   0xF0, 0x80, 0xF0, 0x90, 0xF0,
   0xF0, 0x10, 0x20, 0x40, 0x40,
   0xF0, 0x90, 0xF0, 0x90, 0xF0,
   0xF0, 0x90, 0xF0, 0x10, 0xF0,
   0xF0, 0x90, 0xF0, 0x90, 0x90,
   0xE0, 0x90, 0xE0, 0x90, 0xE0,
   0xF0, 0x80, 0x80, 0x80, 0xF0,
   0xE0, 0x90, 0x90, 0x90, 0xE0,
   0xF0, 0x80, 0xF0, 0x80, 0xF0,
   0xF0, 0x80, 0xF0, 0x80, 0x80]

/-- `FONT_8X10`: the 100-byte SUPER-CHIP font placed at 0x0A0. -/
def FONT_8X10 : List Nat :=
  [0x3C, 0x7E, 0xE7, 0xC3, 0xC3, 0xC3, 0xC3, 0xE7, 0x7E, 0x3C,
   0x18, 0x38, 0x58, 0x18, 0x18, 0x18, 0x18, 0x18, 0x18, 0x3C,
   0x3E, 0x7F, 0xC3, 0x06, 0x0C, 0x18, 0x30, 0x60, 0xFF, 0xFF,
   0x3C, 0x7E, 0xC3, 0x03, 0x0E, 0x0E, 0x03, 0xC3, 0x7E, 0x3C,
   0x06, 0x0E, 0x1E, 0x36, 0x66, 0xC6, 0xFF, 0xFF, 0x06, 0x06,
   0xFF, 0xFF, 0xC0, 0xC0, 0xFC, 0xFE, 0x03, 0xC3, 0x7E, 0x3C,
   0x3E, 0x7C, 0xC0, 0xC0, 0xFC, 0xFE, 0xC3, 0xC3, 0x7E, 0x3C,
   0xFF, 0xFF, 0x03, 0x06, 0x0C, 0x18, 0x30, 0x60, 0x60, 0x60,
   0x3C, 0x7E, 0xC3, 0xC3, 0x7E, 0x7E, 0xC3, 0xC3, 0x7E, 0x3C,
   0x3C, 0x7E, 0xC3, 0xC3, 0x7F, 0x3F, 0x03, 0x03, 0x3E, 0x7C]

/-- The mutable state of `Chip8CPU`.  Byte arrays and register files become
functions `Nat → Nat`; the 128×64 display becomes `Disp`.  The string field
`rom_name` is kept for completeness. -/
structure Chip8 where
  memory : Nat → Nat
  v : Nat → Nat
  i : Nat
  pc : Nat
  stack : Nat → Nat
  sp : Nat
  delay_timer : Nat
  sound_timer : Nat
  display_width : Nat
  display_height : Nat
  display : Disp
  hires_mode : Bool
  keys : Nat → Bool
  draw_flag : Bool
  waiting_for_key : Bool
  key_register : Nat
  halted : Bool
  rpl_flags : Nat → Nat
  rom_loaded : Bool
  rom_name : String
  rom_size : Nat
  cycles : Nat

/-- The dataclass `EmulatorState` returned by `get_state` (note which fields
of `Chip8` it does NOT contain). -/
structure EmulatorState where
  memory : Nat → Nat
  v : Nat → Nat
  i : Nat
  pc : Nat
  stack : Nat → Nat
  sp : Nat
  delay_timer : Nat
  sound_timer : Nat
  display : Disp
  keys : Nat → Bool
  hires_mode : Bool
  rpl_flags : Nat → Nat

/-- Read `memory[a]`; `none` models the Python `IndexError` when `a` is past
the end of the 4096-byte array. -/
def memRead (cfg : EmulatorConfig) (mem : Nat → Nat) (a : Nat) : Option Nat :=
  if a < cfg.memory_size then some (mem a) else none

/-- Write `memory[a] = b`; `none` models the Python `IndexError`. -/
def memWrite (cfg : EmulatorConfig) (mem : Nat → Nat) (a b : Nat) :
    Option (Nat → Nat) :=
  if a < cfg.memory_size then some (upd mem a b) else none

/-- Write a list of font bytes into memory at consecutive addresses. -/
def writeFont : List Nat → Nat → (Nat → Nat) → (Nat → Nat)
  | [], _, m => m
  | b :: bs, a, m => writeFont bs (a + 1) (upd m a b)

/-- `Chip8CPU.reset`: every mutable field is reassigned (including, notably,
`rpl_flags`), so the prior state `_s` is irrelevant. -/
def reset (cfg : EmulatorConfig) (_s : Chip8) : Chip8 :=
  { memory := writeFont FONT_8X10 cfg.hires_font_start
      (writeFont FONT_4X5 cfg.font_start (fun _ => 0)),
    v := fun _ => 0,
    i := 0,
    pc := cfg.program_start,
    stack := fun _ => 0,
    sp := 0,
    delay_timer := 0,
    sound_timer := 0,
    display_width := cfg.lores_width,
    display_height := cfg.lores_height,
    display := fun _ _ => 0,
    hires_mode := false,
    keys := fun _ => false,
    draw_flag := false,
    waiting_for_key := false,
    key_register := 0,
    halted := false,
    rpl_flags := fun _ => 0,
    rom_loaded := false,
    rom_name := "",
    rom_size := 0,
    cycles := 0 }

/-- An arbitrary pre-`__init__` state (all zero); only used to seed `reset`. -/
def init : Chip8 :=
  { memory := fun _ => 0, v := fun _ => 0, i := 0, pc := 0,
    stack := fun _ => 0, sp := 0, delay_timer := 0, sound_timer := 0,
    display_width := 0, display_height := 0, display := fun _ _ => 0,
    hires_mode := false, keys := fun _ => false, draw_flag := false,
    waiting_for_key := false, key_register := 0, halted := false,
    rpl_flags := fun _ => 0, rom_loaded := false, rom_name := "",
    rom_size := 0, cycles := 0 }

/-- The power-on machine, `Chip8CPU(EmulatorConfig())`. -/
def boot : Chip8 := reset defaultCfg init

/-- Copy ROM bytes into memory starting at an address (in-bounds by the size
check in `load_rom`). -/
def copyRom : List Nat → Nat → (Nat → Nat) → (Nat → Nat)
  | [], _, m => m
  | b :: bs, a, m => copyRom bs (a + 1) (upd m a b)

/-- `Chip8CPU.load_rom`.  Note the order in the source: `reset` runs FIRST,
then the size check raises `ValueError` (modelled by the `false` flag) with
the machine left in the freshly reset state. -/
def load_rom (cfg : EmulatorConfig) (s : Chip8) (data : List Nat)
    (name : String) : Bool × Chip8 :=
  let s1 := reset cfg s
  if cfg.memory_size - cfg.program_start < data.length then (false, s1)
  else
    (true,
      { s1 with
        memory := copyRom data cfg.program_start s1.memory,
        rom_loaded := true,
        rom_name := if name = "" then "Unknown" else name,
        rom_size := data.length })

/-- `00E0 CLS`: clear the whole 128×64 buffer, set `draw_flag`, advance. -/
def cls (s : Chip8) : Chip8 :=
  { s with display := fun _ _ => 0, draw_flag := true, pc := s.pc + 2 }

/-- `00EE RET`: underflow halts, otherwise pop and land after the CALL. -/
def ret (s : Chip8) : Chip8 :=
  if s.sp = 0 then { s with halted := true }
  else { s with sp := s.sp - 1, pc := s.stack (s.sp - 1) + 2 }

/-- Inner column loop of `_draw_8xn`: `for col in range(8)` with the clipping
`break`, collision test and XOR blit.  The collision flag is threaded as the
last component (the source writes `self.v[0xF] = 1` directly; `_draw` has
already set it to 0). -/
def drawCols (clip : Bool) (W vx py sb : Nat) :
    Nat → Nat → Disp → Nat → Disp × Nat
  | 0, _, disp, vf => (disp, vf)
  | k + 1, col, disp, vf =>
    if clip = true ∧ W ≤ vx + col then (disp, vf)
    else if sb &&& (0x80 >>> col) ≠ 0 then
      drawCols clip W vx py sb k (col + 1)
        (updD disp py ((vx + col) % W) (disp py ((vx + col) % W) ^^^ 1))
        (if disp py ((vx + col) % W) = 1 then 1 else vf)
    else
      drawCols clip W vx py sb k (col + 1) disp vf

/-- Row loop of `_draw_8xn`: clipping `break` first, then the sprite byte is
fetched from memory (which can fault for oversized `i`). -/
def draw8 (cfg : EmulatorConfig) (mem : Nat → Nat) (i : Nat) (clip : Bool)
    (W H vx vy : Nat) : Nat → Nat → Disp → Nat → Option (Disp × Nat)
  | 0, _, disp, vf => some (disp, vf)
  | k + 1, row, disp, vf =>
    if clip = true ∧ H ≤ vy + row then some (disp, vf)
    else
      match memRead cfg mem (i + row) with
      | none => none
      | some sb =>
        draw8 cfg mem i clip W H vx vy k (row + 1)
          (drawCols clip W vx ((vy + row) % H) sb 8 0 disp vf).1
          (drawCols clip W vx ((vy + row) % H) sb 8 0 disp vf).2

/-- Inner column loop of `_draw_16x16`: always wraps (no clipping test). -/
def drawCols16 (W vx py sw : Nat) :
    Nat → Nat → Disp → Nat → Disp × Nat
  | 0, _, disp, vf => (disp, vf)
  | k + 1, col, disp, vf =>
    if sw &&& (0x8000 >>> col) ≠ 0 then
      drawCols16 W vx py sw k (col + 1)
        (updD disp py ((vx + col) % W) (disp py ((vx + col) % W) ^^^ 1))
        (if disp py ((vx + col) % W) = 1 then 1 else vf)
    else
      drawCols16 W vx py sw k (col + 1) disp vf

/-- Row loop of `_draw_16x16`: 16 rows of two bytes, both coordinates wrap. -/
def draw16 (cfg : EmulatorConfig) (mem : Nat → Nat) (i : Nat)
    (W H vx vy : Nat) : Nat → Nat → Disp → Nat → Option (Disp × Nat)
  | 0, _, disp, vf => some (disp, vf)
  | k + 1, row, disp, vf =>
    match memRead cfg mem (i + row * 2) with
    | none => none
    | some hi =>
      match memRead cfg mem (i + row * 2 + 1) with
      | none => none
      | some lo =>
        draw16 cfg mem i W H vx vy k (row + 1)
          (drawCols16 W vx ((vy + row) % H) ((hi <<< 8) ||| lo) 16 0 disp vf).1
          (drawCols16 W vx ((vy + row) % H) ((hi <<< 8) ||| lo) 16 0 disp vf).2

/-- `Chip8CPU._draw`: starting coordinates always wrap; `v[0xF]` is cleared
and then possibly set by the blit (threaded from 0, written once at the end);
`DXY0` in hires mode selects the 16×16 sprite. -/
def draw (cfg : EmulatorConfig) (s : Chip8) (x y n : Nat) : Option Chip8 :=
  let vx := s.v x % s.display_width
  let vy := s.v y % s.display_height
  if n = 0 ∧ s.hires_mode = true then
    (draw16 cfg s.memory s.i s.display_width s.display_height vx vy
        16 0 s.display 0).map
      fun dc => { s with v := upd s.v 0xF dc.2, display := dc.1,
                         draw_flag := true }
  else
    (draw8 cfg s.memory s.i cfg.quirk_clipping s.display_width
        s.display_height vx vy n 0 s.display 0).map
      fun dc => { s with v := upd s.v 0xF dc.2, display := dc.1,
                         draw_flag := true }

/-- `00CN` scroll down: rows `[n, H)` take the row `n` above, top rows clear;
rows at or past the active height are untouched. -/
def scroll_down (s : Chip8) (n : Nat) : Chip8 :=
  if n = 0 then { s with pc := s.pc + 2 }
  else
    { s with
      display := fun r c =>
        if r < n then 0
        else if r < s.display_height then s.display (r - n) c
        else s.display r c,
      draw_flag := true, pc := s.pc + 2 }

/-- `00DN` scroll up (XO-CHIP). -/
def scroll_up (s : Chip8) (n : Nat) : Chip8 :=
  if n = 0 then { s with pc := s.pc + 2 }
  else
    { s with
      display := fun r c =>
        if r + n < s.display_height then s.display (r + n) c
        else if r < s.display_height then 0
        else s.display r c,
      draw_flag := true, pc := s.pc + 2 }

/-- `00FB` scroll right by 4 (each active row is a 128-wide list). -/
def scroll_right (_cfg : EmulatorConfig) (s : Chip8) : Chip8 :=
  { s with
    display := fun r c =>
      if r < s.display_height then
        (if c < 4 then 0 else s.display r (c - 4))
      else s.display r c,
    draw_flag := true, pc := s.pc + 2 }

/-- `00FC` scroll left by 4. -/
def scroll_left (cfg : EmulatorConfig) (s : Chip8) : Chip8 :=
  { s with
    display := fun r c =>
      if r < s.display_height then
        (if c + 4 < cfg.hires_width then s.display r (c + 4) else 0)
      else s.display r c,
    draw_flag := true, pc := s.pc + 2 }

/-- `00FE`: low-res mode.  The source only switches the mode and viewport;
the framebuffer contents are untouched. -/
def set_lores (cfg : EmulatorConfig) (s : Chip8) : Chip8 :=
  { s with hires_mode := false, display_width := cfg.lores_width,
           display_height := cfg.lores_height, pc := s.pc + 2 }

/-- `00FF`: high-res mode; framebuffer contents untouched. -/
def set_hires (cfg : EmulatorConfig) (s : Chip8) : Chip8 :=
  { s with hires_mode := true, display_width := cfg.hires_width,
           display_height := cfg.hires_height, pc := s.pc + 2 }

/-- The register sequence visited by `5XY2`/`5XY3` (`x..y`, or reversed). -/
def rangeRegs (x y : Nat) : List Nat :=
  if x ≤ y then (List.range (y - x + 1)).map (fun k => x + k)
  else (List.range (x - y + 1)).map (fun k => x - k)

/-- Write registers `rs` to consecutive memory addresses from `a`. -/
def writeSeq (cfg : EmulatorConfig) (v : Nat → Nat) :
    List Nat → Nat → (Nat → Nat) → Option (Nat → Nat)
  | [], _, mem => some mem
  | r :: rs, a, mem =>
    match memWrite cfg mem a (v r) with
    | none => none
    | some m => writeSeq cfg v rs (a + 1) m

/-- Read consecutive memory into registers `rs`. -/
def readSeq (cfg : EmulatorConfig) (mem : Nat → Nat) :
    List Nat → Nat → (Nat → Nat) → Option (Nat → Nat)
  | [], _, v => some v
  | r :: rs, a, v =>
    match memRead cfg mem a with
    | none => none
    | some b => readSeq cfg mem rs (a + 1) (upd v r b)

/-- `5XY2` (XO-CHIP): store `v[x..y]` at `I`; `I` unchanged. -/
def save_range (cfg : EmulatorConfig) (s : Chip8) (x y : Nat) : Option Chip8 :=
  (writeSeq cfg s.v (rangeRegs x y) s.i s.memory).map
    fun m => { s with memory := m, pc := s.pc + 2 }

/-- `5XY3` (XO-CHIP): load `v[x..y]` from `I`. -/
def load_range (cfg : EmulatorConfig) (s : Chip8) (x y : Nat) : Option Chip8 :=
  (readSeq cfg s.memory (rangeRegs x y) s.i s.v).map
    fun vv => { s with v := vv, pc := s.pc + 2 }

/-- Python `(a - b) & 0xFF` on possibly-negative ints. -/
def mask8 (z : Int) : Nat := (z % 256).toNat

/-- `_execute_8xxx`: the ALU group; `pc += 2` at the end for every `n`. -/
def execute_8xxx (cfg : EmulatorConfig) (s : Chip8) (x y n : Nat) : Chip8 :=
  let s1 :=
    if n = 0x0 then { s with v := upd s.v x (s.v y) }
    else if n = 0x1 then
      let v1 := upd s.v x (s.v x ||| s.v y)
      { s with v := if cfg.quirk_vf_reset then upd v1 0xF 0 else v1 }
    else if n = 0x2 then
      let v1 := upd s.v x (s.v x &&& s.v y)
      { s with v := if cfg.quirk_vf_reset then upd v1 0xF 0 else v1 }
    else if n = 0x3 then
      let v1 := upd s.v x (s.v x ^^^ s.v y)
      { s with v := if cfg.quirk_vf_reset then upd v1 0xF 0 else v1 }
    else if n = 0x4 then
      let result := s.v x + s.v y
      { s with v := upd (upd s.v x (result % 256)) 0xF (if 0xFF < result then 1 else 0) }
    else if n = 0x5 then
      let borrow := if s.v x < s.v y then 0 else 1
      { s with v := upd (upd s.v x (mask8 ((s.v x : Int) - (s.v y : Int)))) 0xF borrow }
    else if n = 0x6 then
      let src := if cfg.quirk_shifting then s.v x else s.v y
      { s with v := upd (upd s.v x (src >>> 1)) 0xF (src &&& 0x01) }
    else if n = 0x7 then
      let borrow := if s.v y < s.v x then 0 else 1
      { s with v := upd (upd s.v x (mask8 ((s.v y : Int) - (s.v x : Int)))) 0xF borrow }
    else if n = 0xE then
      let src := if cfg.quirk_shifting then s.v x else s.v y
      { s with v := upd (upd s.v x ((src <<< 1) % 256)) 0xF ((src >>> 7) &&& 0x01) }
    else s
  { s1 with pc := s1.pc + 2 }

/-- Copy `count` cells of `src` into `dst` starting at index `idx`
(the `FX75`/`FX85` loops). -/
def copyRegs (src : Nat → Nat) : Nat → Nat → (Nat → Nat) → (Nat → Nat)
  | 0, _, dst => dst
  | k + 1, idx, dst => copyRegs src k (idx + 1) (upd dst idx (src idx))

/-- Store `v[0..count)` at memory `base..` (`FX55` loop). -/
def storeRegs (cfg : EmulatorConfig) (v : Nat → Nat) (base : Nat) :
    Nat → Nat → (Nat → Nat) → Option (Nat → Nat)
  | 0, _, mem => some mem
  | k + 1, idx, mem =>
    match memWrite cfg mem (base + idx) (v idx) with
    | none => none
    | some m => storeRegs cfg v base k (idx + 1) m

/-- Load `v[0..count)` from memory `base..` (`FX65` loop). -/
def loadRegs (cfg : EmulatorConfig) (mem : Nat → Nat) (base : Nat) :
    Nat → Nat → (Nat → Nat) → Option (Nat → Nat)
  | 0, _, v => some v
  | k + 1, idx, v =>
    match memRead cfg mem (base + idx) with
    | none => none
    | some b => loadRegs cfg mem base k (idx + 1) (upd v idx b)

/-- `_execute_fxxx`: timers, key-wait, index ops and block transfers.
`FX33`/`FX55`/`FX65` index raw memory and can fault for oversized `i`. -/
def execute_fxxx (cfg : EmulatorConfig) (s : Chip8) (x nn : Nat) :
    Option Chip8 :=
  if nn = 0x07 then some { s with v := upd s.v x s.delay_timer, pc := s.pc + 2 }
  else if nn = 0x0A then
    some { s with waiting_for_key := true, key_register := x }
  else if nn = 0x15 then some { s with delay_timer := s.v x, pc := s.pc + 2 }
  else if nn = 0x18 then some { s with sound_timer := s.v x, pc := s.pc + 2 }
  else if nn = 0x1E then
    some { s with i := (s.i + s.v x) % 65536, pc := s.pc + 2 }
  else if nn = 0x29 then
    some { s with i := cfg.font_start + (s.v x &&& 0x0F) * 5, pc := s.pc + 2 }
  else if nn = 0x30 then
    let digit := s.v x &&& 0x0F
    if digit ≤ 9 then
      some { s with i := cfg.hires_font_start + digit * 10, pc := s.pc + 2 }
    else some { s with pc := s.pc + 2 }
  else if nn = 0x33 then
    match memWrite cfg s.memory s.i (s.v x / 100) with
    | none => none
    | some m1 =>
      match memWrite cfg m1 (s.i + 1) ((s.v x / 10) % 10) with
      | none => none
      | some m2 =>
        match memWrite cfg m2 (s.i + 2) (s.v x % 10) with
        | none => none
        | some m3 => some { s with memory := m3, pc := s.pc + 2 }
  else if nn = 0x55 then
    (storeRegs cfg s.v s.i (x + 1) 0 s.memory).map fun m =>
      { s with memory := m,
               i := if cfg.quirk_memory_increment then (s.i + x + 1) % 65536
                    else s.i,
               pc := s.pc + 2 }
  else if nn = 0x65 then
    (loadRegs cfg s.memory s.i (x + 1) 0 s.v).map fun vv =>
      { s with v := vv,
               i := if cfg.quirk_memory_increment then (s.i + x + 1) % 65536
                    else s.i,
               pc := s.pc + 2 }
  else if nn = 0x75 then
    some { s with rpl_flags := copyRegs s.v (min (x + 1) 8) 0 s.rpl_flags,
                  pc := s.pc + 2 }
  else if nn = 0x85 then
    some { s with v := copyRegs s.rpl_flags (min (x + 1) 8) 0 s.v,
                  pc := s.pc + 2 }
  else some { s with pc := s.pc + 2 }

/-- `Chip8CPU._execute`: decode fields and dispatch on the top nibble.
`rand` stands for the value produced by `random.randint(0, 255)` in `CXNN`.
`none` models an uncaught Python exception (out-of-range memory access). -/
def execute (cfg : EmulatorConfig) (rand : Nat) (opcode : Nat) (s : Chip8) :
    Option Chip8 :=
  let nnn := opcode &&& 0x0FFF
  let nn := opcode &&& 0x00FF
  let n := opcode &&& 0x000F
  let x := (opcode >>> 8) &&& 0x0F
  let y := (opcode >>> 4) &&& 0x0F
  let op := opcode >>> 12
  if op = 0x0 then
    if opcode = 0x00E0 then some (cls s)
    else if opcode = 0x00EE then some (ret s)
    else if opcode = 0x00FB then some (scroll_right cfg s)
    else if opcode = 0x00FC then some (scroll_left cfg s)
    else if opcode = 0x00FD then some { s with halted := true }
    else if opcode = 0x00FE then some (set_lores cfg s)
    else if opcode = 0x00FF then some (set_hires cfg s)
    else if opcode &&& 0xFFF0 = 0x00C0 then some (scroll_down s n)
    else if opcode &&& 0xFFF0 = 0x00D0 then some (scroll_up s n)
    else some { s with pc := s.pc + 2 }
  else if op = 0x1 then some { s with pc := nnn }
  else if op = 0x2 then
    if cfg.stack_size ≤ s.sp then some { s with halted := true }
    else some { s with stack := upd s.stack s.sp s.pc, sp := s.sp + 1,
                       pc := nnn }
  else if op = 0x3 then
    some { s with pc := s.pc + (if s.v x = nn then 4 else 2) }
  else if op = 0x4 then
    some { s with pc := s.pc + (if s.v x ≠ nn then 4 else 2) }
  else if op = 0x5 then
    if n = 0x0 then
      some { s with pc := s.pc + (if s.v x = s.v y then 4 else 2) }
    else if n = 0x2 then save_range cfg s x y
    else if n = 0x3 then load_range cfg s x y
    else some { s with pc := s.pc + 2 }
  else if op = 0x6 then some { s with v := upd s.v x nn, pc := s.pc + 2 }
  else if op = 0x7 then
    some { s with v := upd s.v x ((s.v x + nn) % 256), pc := s.pc + 2 }
  else if op = 0x8 then some (execute_8xxx cfg s x y n)
  else if op = 0x9 then
    if n = 0x0 then
      some { s with pc := s.pc + (if s.v x ≠ s.v y then 4 else 2) }
    else some { s with pc := s.pc + 2 }
  else if op = 0xA then some { s with i := nnn, pc := s.pc + 2 }
  else if op = 0xB then
    if cfg.quirk_jumping then some { s with pc := nnn + s.v x }
    else some { s with pc := nnn + s.v 0 }
  else if op = 0xC then
    some { s with v := upd s.v x ((rand % 256) &&& nn), pc := s.pc + 2 }
  else if op = 0xD then
    (draw cfg s x y n).map fun t => { t with pc := t.pc + 2 }
  else if op = 0xE then
    if nn = 0x9E then
      some { s with pc := s.pc + (if s.keys (s.v x &&& 0x0F) then 4 else 2) }
    else if nn = 0xA1 then
      some { s with pc := s.pc + (if s.keys (s.v x &&& 0x0F) then 2 else 4) }
    else some { s with pc := s.pc + 2 }
  else if op = 0xF then execute_fxxx cfg s x nn
  else some { s with pc := s.pc + 2 }

/-- `Chip8CPU.cycle`: returns whether an instruction executed; halted and
key-waiting machines do nothing; a fetch at `pc ≥ memory_size - 1` halts. -/
def cycle (cfg : EmulatorConfig) (rand : Nat) (s : Chip8) :
    Option (Bool × Chip8) :=
  if s.halted = true then some (false, s)
  else if s.waiting_for_key = true then some (false, s)
  else if cfg.memory_size - 1 ≤ s.pc then some (false, { s with halted := true })
  else
    let opcode := (s.memory s.pc <<< 8) ||| s.memory (s.pc + 1)
    (execute cfg rand opcode s).map fun t =>
      (true, { t with cycles := t.cycles + 1 })

/-- `Chip8CPU.key_pressed`: only acts when a key-wait is pending. -/
def key_pressed (k : Nat) (s : Chip8) : Chip8 :=
  if s.waiting_for_key = true then
    { s with v := upd s.v s.key_register k, waiting_for_key := false,
             pc := s.pc + 2 }
  else s

/-- `Chip8CPU.key_released`: a no-op in the source. -/
def key_released (_k : Nat) (s : Chip8) : Chip8 := s

/-- `Chip8CPU.update_timers`: 60 Hz decrement while nonzero. -/
def update_timers (s : Chip8) : Chip8 :=
  { s with
    delay_timer := if 0 < s.delay_timer then s.delay_timer - 1
                   else s.delay_timer,
    sound_timer := if 0 < s.sound_timer then s.sound_timer - 1
                   else s.sound_timer }

/-- `Chip8CPU.get_state`: the snapshot copies twelve fields; `draw_flag`,
`waiting_for_key`, `key_register` and `halted` are NOT captured. -/
def get_state (s : Chip8) : EmulatorState :=
  { memory := s.memory, v := s.v, i := s.i, pc := s.pc, stack := s.stack,
    sp := s.sp, delay_timer := s.delay_timer, sound_timer := s.sound_timer,
    display := s.display, keys := s.keys, hires_mode := s.hires_mode,
    rpl_flags := s.rpl_flags }

/-- `Chip8CPU.load_state`: restores the snapshot fields, recomputes the
viewport from `hires_mode`, and forces `draw_flag := true`,
`halted := false`, `waiting_for_key := false`. -/
def load_state (cfg : EmulatorConfig) (s : Chip8) (st : EmulatorState) :
    Chip8 :=
  { s with
    memory := st.memory, v := st.v, i := st.i, pc := st.pc,
    stack := st.stack, sp := st.sp, delay_timer := st.delay_timer,
    sound_timer := st.sound_timer, display := st.display, keys := st.keys,
    hires_mode := st.hires_mode, rpl_flags := st.rpl_flags,
    display_width := if st.hires_mode = true then cfg.hires_width
                     else cfg.lores_width,
    display_height := if st.hires_mode = true then cfg.hires_height
                      else cfg.lores_height,
    draw_flag := true, halted := false, waiting_for_key := false }

/-- Run `k` cycles, keeping the state unchanged on a no-work cycle result
(used only to build concrete reachable states). -/
def runCycles (cfg : EmulatorConfig) (rand : Nat) : Nat → Chip8 → Chip8
  | 0, s => s
  | k + 1, s => runCycles cfg rand k ((cycle cfg rand s).getD (false, s)).2

/-! ### Basic lemmas about the state helpers -/

theorem upd_self (f : Nat → Nat) (a b : Nat) : upd f a b a = b := by
  simp [upd]

theorem upd_ne (f : Nat → Nat) (a b x : Nat) (h : x ≠ a) : upd f a b x = f x := by
  simp [upd, h]

theorem updD_self (d : Disp) (r c val : Nat) : updD d r c val r c = val := by
  simp [updD]

theorem updD_ne (d : Disp) (r c val p q : Nat) (h : ¬(p = r ∧ q = c)) :
    updD d r c val p q = d p q := by
  simp only [updD]
  rw [if_neg h]

theorem updD_ne_imp {d : Disp} {r c val p q : Nat}
    (h : updD d r c val p q ≠ d p q) : p = r ∧ q = c := by
  by_contra hc
  exact h (updD_ne d r c val p q hc)

theorem xor_one_eq_one {a : Nat} (h : a ^^^ 1 = 1) : a = 0 := by
  have h2 : a ^^^ 1 ^^^ 1 = a := by
    rw [Nat.xor_assoc, Nat.xor_self, Nat.xor_zero]
  rw [h, Nat.xor_self] at h2
  exact h2.symm

theorem addModInj_le {W a c₁ c₂ : Nat} (hle : c₁ ≤ c₂) (hlt : c₂ - c₁ < W)
    (h : (a + c₁) % W = (a + c₂) % W) : c₁ = c₂ := by
  have hmod : a + c₁ ≡ a + c₂ [MOD W] := h
  have hdvd : W ∣ a + c₂ - (a + c₁) := (Nat.modEq_iff_dvd' (by omega)).mp hmod
  have heq : a + c₂ - (a + c₁) = c₂ - c₁ := by omega
  rw [heq] at hdvd
  have := Nat.eq_zero_of_dvd_of_lt hdvd hlt
  omega

theorem addModInj {W : Nat} (a : Nat) {c₁ c₂ : Nat} (h₁ : c₁ < W) (h₂ : c₂ < W)
    (h : (a + c₁) % W = (a + c₂) % W) : c₁ = c₂ := by
  rcases Nat.le_total c₁ c₂ with hle | hle
  · exact addModInj_le hle (by omega) h
  · exact (addModInj_le hle (by omega) h.symm).symm

/-! ### The 8-wide column loop: support, monotonicity and the collision flag -/

theorem drawCols_support (clip : Bool) (W vx py sb : Nat) :
    ∀ (k col : Nat) (disp : Disp) (vf p q : Nat),
      (drawCols clip W vx py sb k col disp vf).1 p q ≠ disp p q →
      p = py ∧ ∃ c, col ≤ c ∧ c < col + k ∧ q = (vx + c) % W ∧
        (clip = true → vx + c < W) := by
  intro k
  induction k with
  | zero =>
    intro col disp vf p q h
    simp [drawCols] at h
  | succ k ih =>
    intro col disp vf p q h
    simp only [drawCols] at h
    by_cases hbr : clip = true ∧ W ≤ vx + col
    · rw [if_pos hbr] at h
      exact absurd rfl h
    · rw [if_neg hbr] at h
      by_cases hbit : sb &&& (0x80 >>> col) ≠ 0
      · rw [if_pos hbit] at h
        by_cases hd : updD disp py ((vx + col) % W)
            (disp py ((vx + col) % W) ^^^ 1) p q = disp p q
        · have h3 : (drawCols clip W vx py sb k (col + 1)
              (updD disp py ((vx + col) % W) (disp py ((vx + col) % W) ^^^ 1))
              (if disp py ((vx + col) % W) = 1 then 1 else vf)).1 p q ≠
              updD disp py ((vx + col) % W)
                (disp py ((vx + col) % W) ^^^ 1) p q := by
            rw [hd]; exact h
          obtain ⟨hp, c, hc1, hc2, hc3, hc4⟩ := ih (col + 1) _ _ p q h3
          exact ⟨hp, c, by omega, by omega, hc3, hc4⟩
        · obtain ⟨hp, hq⟩ := updD_ne_imp hd
          refine ⟨hp, col, Nat.le_refl col, by omega, hq, ?_⟩
          intro hcl
          have hnb : ¬ W ≤ vx + col := fun hB => hbr ⟨hcl, hB⟩
          exact Nat.not_le.mp hnb
      · rw [if_neg hbit] at h
        obtain ⟨hp, c, hc1, hc2, hc3, hc4⟩ := ih (col + 1) _ _ p q h
        exact ⟨hp, c, by omega, by omega, hc3, hc4⟩

theorem drawCols_mono (clip : Bool) (W vx py sb : Nat) :
    ∀ (k col : Nat) (disp : Disp) (vf : Nat), vf = 1 →
      (drawCols clip W vx py sb k col disp vf).2 = 1 := by
  intro k
  induction k with
  | zero => intro col disp vf hvf; simpa [drawCols] using hvf
  | succ k ih =>
    intro col disp vf hvf
    simp only [drawCols]
    by_cases hbr : clip = true ∧ W ≤ vx + col
    · rw [if_pos hbr]; exact hvf
    · rw [if_neg hbr]
      by_cases hbit : sb &&& (0x80 >>> col) ≠ 0
      · rw [if_pos hbit]
        exact ih (col + 1) _ _ (by simp [hvf])
      · rw [if_neg hbit]
        exact ih (col + 1) _ _ hvf

theorem drawCols_vf01 (clip : Bool) (W vx py sb : Nat) :
    ∀ (k col : Nat) (disp : Disp) (vf : Nat),
      (drawCols clip W vx py sb k col disp vf).2 = vf ∨
      (drawCols clip W vx py sb k col disp vf).2 = 1 := by
  intro k
  induction k with
  | zero => intro col disp vf; simp [drawCols]
  | succ k ih =>
    intro col disp vf
    simp only [drawCols]
    by_cases hbr : clip = true ∧ W ≤ vx + col
    · rw [if_pos hbr]; exact Or.inl rfl
    · rw [if_neg hbr]
      by_cases hbit : sb &&& (0x80 >>> col) ≠ 0
      · rw [if_pos hbit]
        by_cases hold : disp py ((vx + col) % W) = 1
        · rw [if_pos hold] at *
          exact Or.inr (drawCols_mono clip W vx py sb k (col + 1) _ _ (by simp [hold]))
        · rw [if_neg hold]
          exact ih (col + 1) _ _
      · rw [if_neg hbit]
        exact ih (col + 1) _ _

theorem drawCols_vf (clip : Bool) (W vx py sb : Nat) (hW : 8 ≤ W) :
    ∀ (k col : Nat), col + k ≤ 8 → ∀ (disp : Disp) (vf : Nat),
      ((drawCols clip W vx py sb k col disp vf).2 = 1 ↔
        vf = 1 ∨ ∃ p q, disp p q = 1 ∧
          (drawCols clip W vx py sb k col disp vf).1 p q = 0) := by
  intro k
  induction k with
  | zero =>
    intro col hcol disp vf
    simp only [drawCols]
    constructor
    · exact fun h => Or.inl h
    · rintro (h | ⟨p, q, h1, h2⟩)
      · exact h
      · have h2' : disp p q = 0 := h2
        rw [h1] at h2'
        exact absurd h2' (by decide)
  | succ k ih =>
    intro col hcol disp vf
    simp only [drawCols]
    by_cases hbr : clip = true ∧ W ≤ vx + col
    · rw [if_pos hbr]
      constructor
      · exact fun h => Or.inl h
      · rintro (h | ⟨p, q, h1, h2⟩)
        · exact h
        · have h2' : disp p q = 0 := h2
          rw [h1] at h2'
          exact absurd h2' (by decide)
    · rw [if_neg hbr]
      by_cases hbit : sb &&& (0x80 >>> col) ≠ 0
      · rw [if_pos hbit]
        by_cases hold : disp py ((vx + col) % W) = 1
        · rw [if_pos hold]
          have hmono : (drawCols clip W vx py sb k (col + 1)
              (updD disp py ((vx + col) % W) (disp py ((vx + col) % W) ^^^ 1))
              1).2 = 1 :=
            drawCols_mono clip W vx py sb k (col + 1) _ _ rfl
          have huntouched : (drawCols clip W vx py sb k (col + 1)
              (updD disp py ((vx + col) % W) (disp py ((vx + col) % W) ^^^ 1))
              1).1 py ((vx + col) % W) = 0 := by
            by_cases hch : (drawCols clip W vx py sb k (col + 1)
                (updD disp py ((vx + col) % W)
                  (disp py ((vx + col) % W) ^^^ 1)) 1).1 py ((vx + col) % W) =
                updD disp py ((vx + col) % W)
                  (disp py ((vx + col) % W) ^^^ 1) py ((vx + col) % W)
            · rw [hch, updD_self, hold, Nat.xor_self]
            · obtain ⟨-, c, hc1, hc2, hc3, -⟩ :=
                drawCols_support clip W vx py sb k (col + 1) _ _ _ _ hch
              have hcc : col = c :=
                addModInj vx (by omega) (by omega) hc3
              omega
          constructor
          · intro _
            exact Or.inr ⟨py, (vx + col) % W, hold, huntouched⟩
          · intro _
            exact hmono
        · rw [if_neg hold]
          rw [ih (col + 1) (by omega)]
          constructor
          · rintro (h | ⟨p, q, h1, h2⟩)
            · exact Or.inl h
            · by_cases hpq : p = py ∧ q = (vx + col) % W
              · obtain ⟨hp, hq⟩ := hpq
                rw [hp, hq] at h1 h2
                rw [updD_self] at h1
                have hzero : disp py ((vx + col) % W) = 0 := xor_one_eq_one h1
                exfalso
                have hne : (drawCols clip W vx py sb k (col + 1)
                    (updD disp py ((vx + col) % W)
                      (disp py ((vx + col) % W) ^^^ 1))
                    vf).1 py ((vx + col) % W) ≠
                    updD disp py ((vx + col) % W)
                      (disp py ((vx + col) % W) ^^^ 1) py ((vx + col) % W) := by
                  rw [updD_self, h2, hzero]
                  decide
                obtain ⟨-, c, hc1, hc2, hc3, -⟩ :=
                  drawCols_support clip W vx py sb k (col + 1) _ _ _ _ hne
                have hcc : col = c :=
                  addModInj vx (by omega) (by omega) hc3
                omega
              · rw [updD_ne disp py ((vx + col) % W) _ p q hpq] at h1
                exact Or.inr ⟨p, q, h1, h2⟩
          · rintro (h | ⟨p, q, h1, h2⟩)
            · exact Or.inl h
            · by_cases hpq : p = py ∧ q = (vx + col) % W
              · obtain ⟨hp, hq⟩ := hpq
                rw [hp, hq] at h1
                exact absurd h1 hold
              · refine Or.inr ⟨p, q, ?_, h2⟩
                rw [updD_ne disp py ((vx + col) % W) _ p q hpq]
                exact h1
      · rw [if_neg hbit]
        exact ih (col + 1) (by omega) disp vf

/-- Composing the collision-flag characterisation across two phases of a
blit, given that pixels touched by the first phase are untouched by the
second. -/
theorem vf_compose {disp dmid dfin : Disp} {vf vfmid vffin : Nat}
    (hmid : vfmid = 1 ↔ vf = 1 ∨ ∃ p q, disp p q = 1 ∧ dmid p q = 0)
    (hfin : vffin = 1 ↔ vfmid = 1 ∨ ∃ p q, dmid p q = 1 ∧ dfin p q = 0)
    (hdisj : ∀ p q, dmid p q ≠ disp p q → dfin p q = dmid p q) :
    vffin = 1 ↔ vf = 1 ∨ ∃ p q, disp p q = 1 ∧ dfin p q = 0 := by
  constructor
  · intro hf
    rcases hfin.mp hf with hm | ⟨p, q, h1, h2⟩
    · rcases hmid.mp hm with hv | ⟨p, q, h1, h2⟩
      · exact Or.inl hv
      · refine Or.inr ⟨p, q, h1, ?_⟩
        have hne : dmid p q ≠ disp p q := by rw [h1, h2]; decide
        rw [hdisj p q hne]
        exact h2
    · by_cases hpq : dmid p q = disp p q
      · exact Or.inr ⟨p, q, by rw [← hpq]; exact h1, h2⟩
      · exfalso
        have hd := hdisj p q hpq
        rw [hd, h1] at h2
        exact absurd h2 (by decide)
  · rintro (hv | ⟨p, q, h1, h2⟩)
    · exact hfin.mpr (Or.inl (hmid.mpr (Or.inl hv)))
    · by_cases hpq : dmid p q = disp p q
      · exact hfin.mpr (Or.inr ⟨p, q, by rw [hpq]; exact h1, h2⟩)
      · have hd := hdisj p q hpq
        rw [hd] at h2
        exact hfin.mpr (Or.inl (hmid.mpr (Or.inr ⟨p, q, h1, h2⟩)))

/-! ### The 16-wide column loop (no clipping test, 0x8000 mask) -/

theorem drawCols16_support (W vx py sw : Nat) :
    ∀ (k col : Nat) (disp : Disp) (vf p q : Nat),
      (drawCols16 W vx py sw k col disp vf).1 p q ≠ disp p q →
      p = py ∧ ∃ c, col ≤ c ∧ c < col + k ∧ q = (vx + c) % W := by
  intro k
  induction k with
  | zero =>
    intro col disp vf p q h
    simp [drawCols16] at h
  | succ k ih =>
    intro col disp vf p q h
    simp only [drawCols16] at h
    by_cases hbit : sw &&& (0x8000 >>> col) ≠ 0
    · rw [if_pos hbit] at h
      by_cases hd : updD disp py ((vx + col) % W)
          (disp py ((vx + col) % W) ^^^ 1) p q = disp p q
      · have h3 : (drawCols16 W vx py sw k (col + 1)
            (updD disp py ((vx + col) % W) (disp py ((vx + col) % W) ^^^ 1))
            (if disp py ((vx + col) % W) = 1 then 1 else vf)).1 p q ≠
            updD disp py ((vx + col) % W)
              (disp py ((vx + col) % W) ^^^ 1) p q := by
          rw [hd]; exact h
        obtain ⟨hp, c, hc1, hc2, hc3⟩ := ih (col + 1) _ _ p q h3
        exact ⟨hp, c, by omega, by omega, hc3⟩
      · obtain ⟨hp, hq⟩ := updD_ne_imp hd
        exact ⟨hp, col, Nat.le_refl col, by omega, hq⟩
    · rw [if_neg hbit] at h
      obtain ⟨hp, c, hc1, hc2, hc3⟩ := ih (col + 1) _ _ p q h
      exact ⟨hp, c, by omega, by omega, hc3⟩

theorem drawCols16_mono (W vx py sw : Nat) :
    ∀ (k col : Nat) (disp : Disp) (vf : Nat), vf = 1 →
      (drawCols16 W vx py sw k col disp vf).2 = 1 := by
  intro k
  induction k with
  | zero => intro col disp vf hvf; simpa [drawCols16] using hvf
  | succ k ih =>
    intro col disp vf hvf
    simp only [drawCols16]
    by_cases hbit : sw &&& (0x8000 >>> col) ≠ 0
    · rw [if_pos hbit]
      exact ih (col + 1) _ _ (by simp [hvf])
    · rw [if_neg hbit]
      exact ih (col + 1) _ _ hvf

theorem drawCols16_vf01 (W vx py sw : Nat) :
    ∀ (k col : Nat) (disp : Disp) (vf : Nat),
      (drawCols16 W vx py sw k col disp vf).2 = vf ∨
      (drawCols16 W vx py sw k col disp vf).2 = 1 := by
  intro k
  induction k with
  | zero => intro col disp vf; simp [drawCols16]
  | succ k ih =>
    intro col disp vf
    simp only [drawCols16]
    by_cases hbit : sw &&& (0x8000 >>> col) ≠ 0
    · rw [if_pos hbit]
      by_cases hold : disp py ((vx + col) % W) = 1
      · rw [if_pos hold]
        exact Or.inr (drawCols16_mono W vx py sw k (col + 1) _ _ rfl)
      · rw [if_neg hold]
        exact ih (col + 1) _ _
    · rw [if_neg hbit]
      exact ih (col + 1) _ _

theorem drawCols16_vf (W vx py sw : Nat) (hW : 16 ≤ W) :
    ∀ (k col : Nat), col + k ≤ 16 → ∀ (disp : Disp) (vf : Nat),
      ((drawCols16 W vx py sw k col disp vf).2 = 1 ↔
        vf = 1 ∨ ∃ p q, disp p q = 1 ∧
          (drawCols16 W vx py sw k col disp vf).1 p q = 0) := by
  intro k
  induction k with
  | zero =>
    intro col hcol disp vf
    simp only [drawCols16]
    constructor
    · exact fun h => Or.inl h
    · rintro (h | ⟨p, q, h1, h2⟩)
      · exact h
      · have h2' : disp p q = 0 := h2
        rw [h1] at h2'
        exact absurd h2' (by decide)
  | succ k ih =>
    intro col hcol disp vf
    simp only [drawCols16]
    by_cases hbit : sw &&& (0x8000 >>> col) ≠ 0
    · rw [if_pos hbit]
      by_cases hold : disp py ((vx + col) % W) = 1
      · rw [if_pos hold]
        have hmono : (drawCols16 W vx py sw k (col + 1)
            (updD disp py ((vx + col) % W) (disp py ((vx + col) % W) ^^^ 1))
            1).2 = 1 :=
          drawCols16_mono W vx py sw k (col + 1) _ _ rfl
        have huntouched : (drawCols16 W vx py sw k (col + 1)
            (updD disp py ((vx + col) % W) (disp py ((vx + col) % W) ^^^ 1))
            1).1 py ((vx + col) % W) = 0 := by
          by_cases hch : (drawCols16 W vx py sw k (col + 1)
              (updD disp py ((vx + col) % W)
                (disp py ((vx + col) % W) ^^^ 1)) 1).1 py ((vx + col) % W) =
              updD disp py ((vx + col) % W)
                (disp py ((vx + col) % W) ^^^ 1) py ((vx + col) % W)
          · rw [hch, updD_self, hold, Nat.xor_self]
          · obtain ⟨-, c, hc1, hc2, hc3⟩ :=
              drawCols16_support W vx py sw k (col + 1) _ _ _ _ hch
            have hcc : col = c :=
              addModInj vx (by omega) (by omega) hc3
            omega
        constructor
        · intro _
          exact Or.inr ⟨py, (vx + col) % W, hold, huntouched⟩
        · intro _
          exact hmono
      · rw [if_neg hold]
        rw [ih (col + 1) (by omega)]
        constructor
        · rintro (h | ⟨p, q, h1, h2⟩)
          · exact Or.inl h
          · by_cases hpq : p = py ∧ q = (vx + col) % W
            · obtain ⟨hp, hq⟩ := hpq
              rw [hp, hq] at h1 h2
              rw [updD_self] at h1
              have hzero : disp py ((vx + col) % W) = 0 := xor_one_eq_one h1
              exfalso
              have hne : (drawCols16 W vx py sw k (col + 1)
                  (updD disp py ((vx + col) % W)
                    (disp py ((vx + col) % W) ^^^ 1))
                  vf).1 py ((vx + col) % W) ≠
                  updD disp py ((vx + col) % W)
                    (disp py ((vx + col) % W) ^^^ 1) py ((vx + col) % W) := by
                rw [updD_self, h2, hzero]
                decide
              obtain ⟨-, c, hc1, hc2, hc3⟩ :=
                drawCols16_support W vx py sw k (col + 1) _ _ _ _ hne
              have hcc : col = c :=
                addModInj vx (by omega) (by omega) hc3
              omega
            · rw [updD_ne disp py ((vx + col) % W) _ p q hpq] at h1
              exact Or.inr ⟨p, q, h1, h2⟩
        · rintro (h | ⟨p, q, h1, h2⟩)
          · exact Or.inl h
          · by_cases hpq : p = py ∧ q = (vx + col) % W
            · obtain ⟨hp, hq⟩ := hpq
              rw [hp, hq] at h1
              exact absurd h1 hold
            · refine Or.inr ⟨p, q, ?_, h2⟩
              rw [updD_ne disp py ((vx + col) % W) _ p q hpq]
              exact h1
    · rw [if_neg hbit]
      exact ih (col + 1) (by omega) disp vf

/-! ### The 8×N row loop -/

theorem draw8_support (cfg : EmulatorConfig) (mem : Nat → Nat) (i : Nat)
    (clip : Bool) (W H vx vy : Nat) :
    ∀ (k row : Nat) (disp : Disp) (vf : Nat) (d' : Disp) (vf' : Nat),
      draw8 cfg mem i clip W H vx vy k row disp vf = some (d', vf') →
      ∀ p q, d' p q ≠ disp p q →
      ∃ r, row ≤ r ∧ r < row + k ∧ p = (vy + r) % H ∧
        (clip = true → vy + r < H) ∧
        ∃ c, c < 8 ∧ q = (vx + c) % W ∧ (clip = true → vx + c < W) := by
  intro k
  induction k with
  | zero =>
    intro row disp vf d' vf' h p q hne
    simp only [draw8, Option.some.injEq, Prod.mk.injEq] at h
    obtain ⟨h1, h2⟩ := h
    rw [← h1] at hne
    exact absurd rfl hne
  | succ k ih =>
    intro row disp vf d' vf' h p q hne
    simp only [draw8] at h
    by_cases hbr : clip = true ∧ H ≤ vy + row
    · rw [if_pos hbr] at h
      simp only [Option.some.injEq, Prod.mk.injEq] at h
      obtain ⟨h1, h2⟩ := h
      rw [← h1] at hne
      exact absurd rfl hne
    · rw [if_neg hbr] at h
      split at h
      · simp at h
      · rename_i sb hsb
        by_cases hd : (drawCols clip W vx ((vy + row) % H) sb 8 0 disp vf).1
            p q = disp p q
        · have hne2 : d' p q ≠
              (drawCols clip W vx ((vy + row) % H) sb 8 0 disp vf).1 p q := by
            rw [hd]; exact hne
          obtain ⟨r, hr1, hr2, hr3, hr4, hc⟩ := ih (row + 1) _ _ _ _ h p q hne2
          exact ⟨r, by omega, by omega, hr3, hr4, hc⟩
        · obtain ⟨hp, c, hc1, hc2, hc3, hc4⟩ :=
            drawCols_support clip W vx ((vy + row) % H) sb 8 0 disp vf p q hd
          refine ⟨row, Nat.le_refl row, by omega, hp, ?_, c, by omega, hc3, hc4⟩
          intro hcl
          exact Nat.not_le.mp (fun hB => hbr ⟨hcl, hB⟩)

theorem draw8_mono (cfg : EmulatorConfig) (mem : Nat → Nat) (i : Nat)
    (clip : Bool) (W H vx vy : Nat) :
    ∀ (k row : Nat) (disp : Disp) (vf : Nat) (d' : Disp) (vf' : Nat),
      vf = 1 → draw8 cfg mem i clip W H vx vy k row disp vf = some (d', vf') →
      vf' = 1 := by
  intro k
  induction k with
  | zero =>
    intro row disp vf d' vf' hvf h
    simp only [draw8, Option.some.injEq, Prod.mk.injEq] at h
    obtain ⟨-, h2⟩ := h
    rw [← h2]; exact hvf
  | succ k ih =>
    intro row disp vf d' vf' hvf h
    simp only [draw8] at h
    by_cases hbr : clip = true ∧ H ≤ vy + row
    · rw [if_pos hbr] at h
      simp only [Option.some.injEq, Prod.mk.injEq] at h
      obtain ⟨-, h2⟩ := h
      rw [← h2]; exact hvf
    · rw [if_neg hbr] at h
      split at h
      · simp at h
      · rename_i sb hsb
        exact ih (row + 1) _ _ _ _
          (drawCols_mono clip W vx ((vy + row) % H) sb 8 0 disp vf hvf) h

theorem draw8_vf01 (cfg : EmulatorConfig) (mem : Nat → Nat) (i : Nat)
    (clip : Bool) (W H vx vy : Nat) :
    ∀ (k row : Nat) (disp : Disp) (vf : Nat) (d' : Disp) (vf' : Nat),
      draw8 cfg mem i clip W H vx vy k row disp vf = some (d', vf') →
      vf' = vf ∨ vf' = 1 := by
  intro k
  induction k with
  | zero =>
    intro row disp vf d' vf' h
    simp only [draw8, Option.some.injEq, Prod.mk.injEq] at h
    obtain ⟨-, h2⟩ := h
    exact Or.inl h2.symm
  | succ k ih =>
    intro row disp vf d' vf' h
    simp only [draw8] at h
    by_cases hbr : clip = true ∧ H ≤ vy + row
    · rw [if_pos hbr] at h
      simp only [Option.some.injEq, Prod.mk.injEq] at h
      obtain ⟨-, h2⟩ := h
      exact Or.inl h2.symm
    · rw [if_neg hbr] at h
      split at h
      · simp at h
      · rename_i sb hsb
        rcases ih (row + 1) _ _ _ _ h with hcase | hcase
        · rcases drawCols_vf01 clip W vx ((vy + row) % H) sb 8 0 disp vf
            with hc | hc
          · rw [hc] at hcase; exact Or.inl hcase
          · rw [hc] at hcase; exact Or.inr hcase
        · exact Or.inr hcase

theorem draw8_vf (cfg : EmulatorConfig) (mem : Nat → Nat) (i : Nat)
    (clip : Bool) (W H vx vy : Nat) (hW : 8 ≤ W) :
    ∀ (k row : Nat), row + k ≤ H →
    ∀ (disp : Disp) (vf : Nat) (d' : Disp) (vf' : Nat),
      draw8 cfg mem i clip W H vx vy k row disp vf = some (d', vf') →
      (vf' = 1 ↔ vf = 1 ∨ ∃ p q, disp p q = 1 ∧ d' p q = 0) := by
  intro k
  induction k with
  | zero =>
    intro row hk disp vf d' vf' h
    simp only [draw8, Option.some.injEq, Prod.mk.injEq] at h
    obtain ⟨h1, h2⟩ := h
    rw [← h1, ← h2]
    constructor
    · exact fun hv => Or.inl hv
    · rintro (hv | ⟨p, q, hp1, hp2⟩)
      · exact hv
      · rw [hp1] at hp2; exact absurd hp2 (by decide)
  | succ k ih =>
    intro row hk disp vf d' vf' h
    simp only [draw8] at h
    by_cases hbr : clip = true ∧ H ≤ vy + row
    · rw [if_pos hbr] at h
      simp only [Option.some.injEq, Prod.mk.injEq] at h
      obtain ⟨h1, h2⟩ := h
      rw [← h1, ← h2]
      constructor
      · exact fun hv => Or.inl hv
      · rintro (hv | ⟨p, q, hp1, hp2⟩)
        · exact hv
        · rw [hp1] at hp2; exact absurd hp2 (by decide)
    · rw [if_neg hbr] at h
      split at h
      · simp at h
      · rename_i sb hsb
        have hcols := drawCols_vf clip W vx ((vy + row) % H) sb hW 8 0
          (by omega) disp vf
        have hihe := ih (row + 1) (by omega) _ _ _ _ h
        refine vf_compose hcols hihe ?_
        intro p q hne
        by_contra hne2
        obtain ⟨r, hr1, hr2, hr3, -, -⟩ :=
          draw8_support cfg mem i clip W H vx vy k (row + 1) _ _ _ _ h p q hne2
        obtain ⟨hp, -⟩ :=
          drawCols_support clip W vx ((vy + row) % H) sb 8 0 disp vf p q hne
        rw [hp] at hr3
        have : row = r := addModInj vy (by omega) (by omega) hr3
        omega

/-! ### The 16×16 row loop -/

theorem draw16_support (cfg : EmulatorConfig) (mem : Nat → Nat) (i : Nat)
    (W H vx vy : Nat) :
    ∀ (k row : Nat) (disp : Disp) (vf : Nat) (d' : Disp) (vf' : Nat),
      draw16 cfg mem i W H vx vy k row disp vf = some (d', vf') →
      ∀ p q, d' p q ≠ disp p q →
      ∃ r, row ≤ r ∧ r < row + k ∧ p = (vy + r) % H ∧
        ∃ c, c < 16 ∧ q = (vx + c) % W := by
  intro k
  induction k with
  | zero =>
    intro row disp vf d' vf' h p q hne
    simp only [draw16, Option.some.injEq, Prod.mk.injEq] at h
    obtain ⟨h1, h2⟩ := h
    rw [← h1] at hne
    exact absurd rfl hne
  | succ k ih =>
    intro row disp vf d' vf' h p q hne
    simp only [draw16] at h
    split at h
    · simp at h
    · rename_i hi hhi
      split at h
      · simp at h
      · rename_i lo hlo
        by_cases hd : (drawCols16 W vx ((vy + row) % H) ((hi <<< 8) ||| lo)
            16 0 disp vf).1 p q = disp p q
        · have hne2 : d' p q ≠ (drawCols16 W vx ((vy + row) % H)
              ((hi <<< 8) ||| lo) 16 0 disp vf).1 p q := by
            rw [hd]; exact hne
          obtain ⟨r, hr1, hr2, hr3, hc⟩ := ih (row + 1) _ _ _ _ h p q hne2
          exact ⟨r, by omega, by omega, hr3, hc⟩
        · obtain ⟨hp, c, hc1, hc2, hc3⟩ :=
            drawCols16_support W vx ((vy + row) % H) ((hi <<< 8) ||| lo)
              16 0 disp vf p q hd
          exact ⟨row, Nat.le_refl row, by omega, hp, c, by omega, hc3⟩

theorem draw16_mono (cfg : EmulatorConfig) (mem : Nat → Nat) (i : Nat)
    (W H vx vy : Nat) :
    ∀ (k row : Nat) (disp : Disp) (vf : Nat) (d' : Disp) (vf' : Nat),
      vf = 1 → draw16 cfg mem i W H vx vy k row disp vf = some (d', vf') →
      vf' = 1 := by
  intro k
  induction k with
  | zero =>
    intro row disp vf d' vf' hvf h
    simp only [draw16, Option.some.injEq, Prod.mk.injEq] at h
    obtain ⟨-, h2⟩ := h
    rw [← h2]; exact hvf
  | succ k ih =>
    intro row disp vf d' vf' hvf h
    simp only [draw16] at h
    split at h
    · simp at h
    · rename_i hi hhi
      split at h
      · simp at h
      · rename_i lo hlo
        exact ih (row + 1) _ _ _ _
          (drawCols16_mono W vx ((vy + row) % H) ((hi <<< 8) ||| lo)
            16 0 disp vf hvf) h

theorem draw16_vf01 (cfg : EmulatorConfig) (mem : Nat → Nat) (i : Nat)
    (W H vx vy : Nat) :
    ∀ (k row : Nat) (disp : Disp) (vf : Nat) (d' : Disp) (vf' : Nat),
      draw16 cfg mem i W H vx vy k row disp vf = some (d', vf') →
      vf' = vf ∨ vf' = 1 := by
  intro k
  induction k with
  | zero =>
    intro row disp vf d' vf' h
    simp only [draw16, Option.some.injEq, Prod.mk.injEq] at h
    obtain ⟨-, h2⟩ := h
    exact Or.inl h2.symm
  | succ k ih =>
    intro row disp vf d' vf' h
    simp only [draw16] at h
    split at h
    · simp at h
    · rename_i hi hhi
      split at h
      · simp at h
      · rename_i lo hlo
        rcases ih (row + 1) _ _ _ _ h with hcase | hcase
        · rcases drawCols16_vf01 W vx ((vy + row) % H) ((hi <<< 8) ||| lo)
            16 0 disp vf with hc | hc
          · rw [hc] at hcase; exact Or.inl hcase
          · rw [hc] at hcase; exact Or.inr hcase
        · exact Or.inr hcase

theorem draw16_vf (cfg : EmulatorConfig) (mem : Nat → Nat) (i : Nat)
    (W H vx vy : Nat) (hW : 16 ≤ W) :
    ∀ (k row : Nat), row + k ≤ H →
    ∀ (disp : Disp) (vf : Nat) (d' : Disp) (vf' : Nat),
      draw16 cfg mem i W H vx vy k row disp vf = some (d', vf') →
      (vf' = 1 ↔ vf = 1 ∨ ∃ p q, disp p q = 1 ∧ d' p q = 0) := by
  intro k
  induction k with
  | zero =>
    intro row hk disp vf d' vf' h
    simp only [draw16, Option.some.injEq, Prod.mk.injEq] at h
    obtain ⟨h1, h2⟩ := h
    rw [← h1, ← h2]
    constructor
    · exact fun hv => Or.inl hv
    · rintro (hv | ⟨p, q, hp1, hp2⟩)
      · exact hv
      · rw [hp1] at hp2; exact absurd hp2 (by decide)
  | succ k ih =>
    intro row hk disp vf d' vf' h
    simp only [draw16] at h
    split at h
    · simp at h
    · rename_i hi hhi
      split at h
      · simp at h
      · rename_i lo hlo
        have hcols := drawCols16_vf W vx ((vy + row) % H) ((hi <<< 8) ||| lo)
          hW 16 0 (by omega) disp vf
        have hihe := ih (row + 1) (by omega) _ _ _ _ h
        refine vf_compose hcols hihe ?_
        intro p q hne
        by_contra hne2
        obtain ⟨r, hr1, hr2, hr3, -⟩ :=
          draw16_support cfg mem i W H vx vy k (row + 1) _ _ _ _ h p q hne2
        obtain ⟨hp, -⟩ :=
          drawCols16_support W vx ((vy + row) % H) ((hi <<< 8) ||| lo)
            16 0 disp vf p q hne
        rw [hp] at hr3
        have : row = r := addModInj vy (by omega) (by omega) hr3
        omega

/-- Dispatch: an opcode with top nibble `0xD` runs the draw handler and then
advances `pc` by 2. -/
theorem execute_draw (cfg : EmulatorConfig) (rand op : Nat) (s : Chip8)
    (hop : op >>> 12 = 0xD) :
    execute cfg rand op s =
      (draw cfg s ((op >>> 8) &&& 0x0F) ((op >>> 4) &&& 0x0F)
        (op &&& 0x000F)).map fun t => { t with pc := t.pc + 2 } := by
  simp [execute, hop]

/-! ### Claim theorems -/

/-- C1: for every `DXYN` draw (on a valid viewport) that completes without a
memory fault, `v[0xF]` ends up `1` iff some framebuffer pixel went from 1 to
0 during the blit, and otherwise ends up `0`: the flag is cleared at the
start and its final value is exactly the collision bit. -/
theorem c1_draw_collision_iff (cfg : EmulatorConfig) (rand op : Nat)
    (s s' : Chip8) (hop : op >>> 12 = 0xD)
    (hW : 16 ≤ s.display_width) (hH : 16 ≤ s.display_height)
    (hex : execute cfg rand op s = some s') :
    (s'.v 0xF = 1 ↔ ∃ p q, s.display p q = 1 ∧ s'.display p q = 0) ∧
    (s'.v 0xF = 0 ∨ s'.v 0xF = 1) := by
  rw [execute_draw cfg rand op s hop] at hex
  rcases Option.map_eq_some'.mp hex with ⟨t, hdraw, hs'⟩
  subst hs'
  simp only [draw] at hdraw
  by_cases hpath : op &&& 0x000F = 0 ∧ s.hires_mode = true
  · rw [if_pos hpath] at hdraw
    rcases Option.map_eq_some'.mp hdraw with ⟨dc, hdc, ht⟩
    subst ht
    have hvf := draw16_vf cfg s.memory s.i s.display_width s.display_height
      (s.v ((op >>> 8) &&& 0x0F) % s.display_width)
      (s.v ((op >>> 4) &&& 0x0F) % s.display_height) hW 16 0 (by omega)
      s.display 0 dc.1 dc.2 hdc
    have h1 : dc.2 = 1 ↔ ∃ p q, s.display p q = 1 ∧ dc.1 p q = 0 := by
      rw [hvf]; simp
    have h01 : dc.2 = 0 ∨ dc.2 = 1 := by
      rcases draw16_vf01 cfg s.memory s.i s.display_width s.display_height
          (s.v ((op >>> 8) &&& 0x0F) % s.display_width)
          (s.v ((op >>> 4) &&& 0x0F) % s.display_height) 16 0 s.display 0
          dc.1 dc.2 hdc with hc | hc
      · exact Or.inl hc
      · exact Or.inr hc
    exact ⟨h1, h01⟩
  · rw [if_neg hpath] at hdraw
    rcases Option.map_eq_some'.mp hdraw with ⟨dc, hdc, ht⟩
    subst ht
    have hn : op &&& 0x000F ≤ 0x000F := Nat.and_le_right
    have hvf := draw8_vf cfg s.memory s.i cfg.quirk_clipping s.display_width
      s.display_height
      (s.v ((op >>> 8) &&& 0x0F) % s.display_width)
      (s.v ((op >>> 4) &&& 0x0F) % s.display_height) (by omega)
      (op &&& 0x000F) 0 (by omega) s.display 0 dc.1 dc.2 hdc
    have h1 : dc.2 = 1 ↔ ∃ p q, s.display p q = 1 ∧ dc.1 p q = 0 := by
      rw [hvf]; simp
    have h01 : dc.2 = 0 ∨ dc.2 = 1 := by
      rcases draw8_vf01 cfg s.memory s.i cfg.quirk_clipping s.display_width
          s.display_height
          (s.v ((op >>> 8) &&& 0x0F) % s.display_width)
          (s.v ((op >>> 4) &&& 0x0F) % s.display_height) (op &&& 0x000F) 0
          s.display 0 dc.1 dc.2 hdc with hc | hc
      · exact Or.inl hc
      · exact Or.inr hc
    exact ⟨h1, h01⟩

/-- A concrete draw state: pixel (0,0) lit, sprite byte `0x80` at `I = 0x500`,
so `D001` erases that pixel. -/
def c1state : Chip8 :=
  { boot with
    i := 0x500,
    memory := upd boot.memory 0x500 0x80,
    display := updD boot.display 0 0 1 }

def c1after : Chip8 := (execute defaultCfg 0 0xD001 c1state).getD c1state

theorem c1_witness :
    0xD001 >>> 12 = 0xD ∧ 16 ≤ c1state.display_width ∧
    16 ≤ c1state.display_height ∧
    execute defaultCfg 0 0xD001 c1state = some c1after ∧
    ((c1after.v 0xF = 1 ↔ ∃ p q, c1state.display p q = 1 ∧
        c1after.display p q = 0) ∧
      (c1after.v 0xF = 0 ∨ c1after.v 0xF = 1)) :=
  ⟨by decide, by decide, by decide, rfl,
    c1_draw_collision_iff defaultCfg 0 0xD001 c1state c1after (by decide)
      (by decide) (by decide) rfl⟩

/-- A ROM that switches to hires, sets `I = 0x20C`, `v0 = 0`, `v1 = 63` and
draws `D010` (a 16×16 sprite whose second row is `0x8000`). -/
def c2rom : List Nat :=
  [0x00, 0xFF, 0xA2, 0x0C, 0x60, 0x00, 0x61, 0x3F,
   0xD0, 0x10, 0x00, 0x00, 0x00, 0x00, 0x80, 0x00]

def c2start : Chip8 := (load_rom defaultCfg init c2rom "rom").2

def c2before : Chip8 := runCycles defaultCfg 0 4 c2start

def c2after : Chip8 := runCycles defaultCfg 0 5 c2start

/-- C2 (counterexample): with the clipping quirk enabled, a hires `DXY0` draw
with `oy = 63` still draws its second sprite row (`oy + 1 = 64 ≥ 64`) at the
wrapped row 0 — the claim says that row must not be drawn. -/
theorem c2_counterexample :
    defaultCfg.quirk_clipping = true ∧
    c2before.hires_mode = true ∧ c2before.v 1 = 63 ∧
    c2before.display_height = 64 ∧
    c2before.memory c2before.pc = 0xD0 ∧
    c2before.memory (c2before.pc + 1) = 0x10 ∧
    c2before.display 0 0 = 0 ∧
    c2after.display 0 0 = 1 := by decide

/-- C2 (amended): for a `DXYN` draw with the clipping quirk on, the starting
coordinates wrap, and for the 8×N shape every drawn pixel lies at
unclipped coordinates `(oy + r, ox + c)` inside the active viewport; the
16×16 `DXY0` hires shape ignores the quirk and wraps both coordinates. -/
theorem c2_clipping_amended (cfg : EmulatorConfig) (rand op : Nat)
    (s s' : Chip8) (hop : op >>> 12 = 0xD) (hclip : cfg.quirk_clipping = true)
    (hex : execute cfg rand op s = some s') :
    ∀ p q, s'.display p q ≠ s.display p q →
      if op &&& 0x000F = 0 ∧ s.hires_mode = true then
        ∃ r c, r < 16 ∧ c < 16 ∧
          p = (s.v ((op >>> 4) &&& 0x0F) % s.display_height + r) %
            s.display_height ∧
          q = (s.v ((op >>> 8) &&& 0x0F) % s.display_width + c) %
            s.display_width
      else
        ∃ r c, r < op &&& 0x000F ∧ c < 8 ∧
          s.v ((op >>> 4) &&& 0x0F) % s.display_height + r <
            s.display_height ∧
          s.v ((op >>> 8) &&& 0x0F) % s.display_width + c <
            s.display_width ∧
          p = s.v ((op >>> 4) &&& 0x0F) % s.display_height + r ∧
          q = s.v ((op >>> 8) &&& 0x0F) % s.display_width + c := by
  rw [execute_draw cfg rand op s hop] at hex
  rcases Option.map_eq_some'.mp hex with ⟨t, hdraw, hs'⟩
  subst hs'
  simp only [draw] at hdraw
  intro p q hne
  by_cases hpath : op &&& 0x000F = 0 ∧ s.hires_mode = true
  · rw [if_pos hpath] at hdraw
    rw [if_pos hpath]
    rcases Option.map_eq_some'.mp hdraw with ⟨dc, hdc, ht⟩
    subst ht
    obtain ⟨r, hr1, hr2, hr3, c, hc1, hc2⟩ :=
      draw16_support cfg s.memory s.i s.display_width s.display_height
        (s.v ((op >>> 8) &&& 0x0F) % s.display_width)
        (s.v ((op >>> 4) &&& 0x0F) % s.display_height) 16 0 s.display 0
        dc.1 dc.2 hdc p q hne
    exact ⟨r, c, by omega, hc1, hr3, hc2⟩
  · rw [if_neg hpath] at hdraw
    rw [if_neg hpath]
    rcases Option.map_eq_some'.mp hdraw with ⟨dc, hdc, ht⟩
    subst ht
    obtain ⟨r, hr1, hr2, hr3, hr4, c, hc1, hc2, hc3⟩ :=
      draw8_support cfg s.memory s.i cfg.quirk_clipping s.display_width
        s.display_height
        (s.v ((op >>> 8) &&& 0x0F) % s.display_width)
        (s.v ((op >>> 4) &&& 0x0F) % s.display_height) (op &&& 0x000F) 0
        s.display 0 dc.1 dc.2 hdc p q hne
    have hyH := hr4 hclip
    have hxW := hc3 hclip
    refine ⟨r, c, by omega, hc1, hyH, hxW, ?_, ?_⟩
    · rw [hr3, Nat.mod_eq_of_lt hyH]
    · rw [hc2, Nat.mod_eq_of_lt hxW]

/-- A lores state near the right/bottom edge: `v0 = 60`, `v1 = 30`, sprite
`FF FF` at `I = 0x500`; `D012` must clip at both edges. -/
def c2wstate : Chip8 :=
  { boot with
    i := 0x500,
    memory := upd (upd boot.memory 0x500 0xFF) 0x501 0xFF,
    v := upd (upd boot.v 0 60) 1 30 }

def c2wafter : Chip8 := (execute defaultCfg 0 0xD012 c2wstate).getD c2wstate

theorem c2_witness :
    0xD012 >>> 12 = 0xD ∧ defaultCfg.quirk_clipping = true ∧
    execute defaultCfg 0 0xD012 c2wstate = some c2wafter ∧
    (∀ p q, c2wafter.display p q ≠ c2wstate.display p q →
      if 0xD012 &&& 0x000F = 0 ∧ c2wstate.hires_mode = true then
        ∃ r c, r < 16 ∧ c < 16 ∧
          p = (c2wstate.v ((0xD012 >>> 4) &&& 0x0F) %
              c2wstate.display_height + r) % c2wstate.display_height ∧
          q = (c2wstate.v ((0xD012 >>> 8) &&& 0x0F) %
              c2wstate.display_width + c) % c2wstate.display_width
      else
        ∃ r c, r < 0xD012 &&& 0x000F ∧ c < 8 ∧
          c2wstate.v ((0xD012 >>> 4) &&& 0x0F) % c2wstate.display_height +
            r < c2wstate.display_height ∧
          c2wstate.v ((0xD012 >>> 8) &&& 0x0F) % c2wstate.display_width +
            c < c2wstate.display_width ∧
          p = c2wstate.v ((0xD012 >>> 4) &&& 0x0F) %
            c2wstate.display_height + r ∧
          q = c2wstate.v ((0xD012 >>> 8) &&& 0x0F) %
            c2wstate.display_width + c) :=
  ⟨by decide, rfl, rfl,
    c2_clipping_amended defaultCfg 0 0xD012 c2wstate c2wafter (by decide)
      rfl rfl⟩

/-- C3: `2NNN` pushes the address of the CALL instruction itself (`pc` at
decode time) and jumps to `nnn`; any later `00EE` with the pushed frame on
top pops it and resumes at the instruction after the CALL, with `sp`
restored. -/
theorem c3_call_ret (cfg : EmulatorConfig) (rand : Nat) (s : Chip8) (op : Nat)
    (hop : op >>> 12 = 0x2) (hsp : s.sp < cfg.stack_size) :
    execute cfg rand op s =
      some { s with stack := upd s.stack s.sp s.pc, sp := s.sp + 1,
                    pc := op &&& 0x0FFF } ∧
    ∀ t : Chip8, t.sp = s.sp + 1 → t.stack s.sp = s.pc →
      execute cfg rand 0x00EE t = some { t with sp := s.sp, pc := s.pc + 2 } := by
  constructor
  · simp [execute, hop, Nat.not_le.mpr hsp]
  · intro t ht hst
    have hr : execute cfg rand 0x00EE t = some (ret t) := rfl
    rw [hr]
    simp [ret, ht, hst]

theorem c3_witness :
    0x2ABC >>> 12 = 0x2 ∧ boot.sp < defaultCfg.stack_size ∧
    (execute defaultCfg 0 0x2ABC boot =
      some { boot with stack := upd boot.stack boot.sp boot.pc,
                       sp := boot.sp + 1, pc := 0x2ABC &&& 0x0FFF } ∧
     ∀ t : Chip8, t.sp = boot.sp + 1 → t.stack boot.sp = boot.pc →
       execute defaultCfg 0 0x00EE t =
         some { t with sp := boot.sp, pc := boot.pc + 2 }) :=
  ⟨by decide, by decide,
    c3_call_ret defaultCfg 0 boot 0x2ABC (by decide) (by decide)⟩

/-- `LD V0, 0xFF` then `JP V0, 0xFFF` (`BFFF`). -/
def c4rom : List Nat := [0x60, 0xFF, 0xBF, 0xFF]

def c4s1 : Chip8 := runCycles defaultCfg 0 1 (load_rom defaultCfg init c4rom "rom").2

def c4s2 : Chip8 := ((cycle defaultCfg 0 c4s1).getD (false, c4s1)).2

/-- C4 (counterexample): the `BNNN` step completes with
`pc = 0xFFF + 0xFF = 0x10FE ≥ memory_size` while `halted` is still false and
no key-wait started, violating the claimed invariant. -/
theorem c4_counterexample :
    cycle defaultCfg 0 c4s1 = some (true, c4s2) ∧
    c4s2.halted = false ∧ c4s2.waiting_for_key = false ∧
    defaultCfg.memory_size ≤ c4s2.pc :=
  ⟨rfl, rfl, rfl, by decide⟩

/-- C4 (amended): a step may leave `pc ≥ memory_size` with `halted` false
(e.g. `BNNN` with a large target, or a skip at the top of memory), but
whenever a step leaves `pc ≥ memory_size - 1` on a running machine, the next
`cycle` executes nothing and sets `halted`, so no out-of-range fetch ever
happens. -/
theorem c4_pc_guard_amended (cfg : EmulatorConfig) (rand : Nat) (s : Chip8)
    (b : Bool) (s' : Chip8) (_hex : cycle cfg rand s = some (b, s'))
    (hh : s'.halted = false) (hw : s'.waiting_for_key = false)
    (hpc : cfg.memory_size - 1 ≤ s'.pc) :
    cycle cfg rand s' = some (false, { s' with halted := true }) := by
  simp [cycle, hh, hw, hpc]

theorem c4_witness :
    cycle defaultCfg 0 c4s1 = some (true, c4s2) ∧ c4s2.halted = false ∧
    c4s2.waiting_for_key = false ∧ defaultCfg.memory_size - 1 ≤ c4s2.pc ∧
    cycle defaultCfg 0 c4s2 = some (false, { c4s2 with halted := true }) :=
  ⟨rfl, rfl, rfl, by decide,
    c4_pc_guard_amended defaultCfg 0 c4s1 true c4s2 rfl rfl rfl (by decide)⟩

/-- `FX0A` with destination register 3. -/
def c5rom : List Nat := [0xF3, 0x0A]

def c5wait : Chip8 := runCycles defaultCfg 0 1 (load_rom defaultCfg init c5rom "rom").2

def c5rt : Chip8 := load_state defaultCfg c5wait (get_state c5wait)

/-- C5 (counterexample): a machine blocked in `FX0A` round-trips to one that
is NOT waiting; delivering key 7 afterwards writes `v3` and advances `pc` on
the original but does nothing on the round-tripped machine, so the two are
distinguishable by a single `press`. -/
theorem c5_counterexample :
    c5wait.waiting_for_key = true ∧
    c5rt.waiting_for_key = false ∧
    (key_pressed 7 c5wait).v 3 = 7 ∧
    (key_pressed 7 c5rt).v 3 = 0 ∧
    (key_pressed 7 c5wait).pc = 0x202 ∧
    (key_pressed 7 c5rt).pc = 0x200 := by decide

/-- C5 (amended): the snapshot round trip is the identity only on running
states: `halted = false`, no pending key-wait, `draw_flag` already true, and
the viewport consistent with `hires_mode` (all reachable running states
satisfy this); `halted` and a pending key-wait do not survive. -/
theorem c5_roundtrip_amended (cfg : EmulatorConfig) (s : Chip8)
    (h1 : s.halted = false) (h2 : s.waiting_for_key = false)
    (h3 : s.draw_flag = true)
    (h4 : s.display_width =
      if s.hires_mode = true then cfg.hires_width else cfg.lores_width)
    (h5 : s.display_height =
      if s.hires_mode = true then cfg.hires_height else cfg.lores_height) :
    load_state cfg s (get_state s) = s := by
  cases s
  simp_all [load_state, get_state]

def c5wstate : Chip8 := { boot with draw_flag := true }

theorem c5_witness :
    c5wstate.halted = false ∧ c5wstate.waiting_for_key = false ∧
    c5wstate.draw_flag = true ∧
    c5wstate.display_width = (if c5wstate.hires_mode = true then
      defaultCfg.hires_width else defaultCfg.lores_width) ∧
    c5wstate.display_height = (if c5wstate.hires_mode = true then
      defaultCfg.hires_height else defaultCfg.lores_height) ∧
    load_state defaultCfg c5wstate (get_state c5wstate) = c5wstate :=
  ⟨rfl, rfl, rfl, by decide, by decide,
    c5_roundtrip_amended defaultCfg c5wstate rfl rfl rfl (by decide)
      (by decide)⟩

/-- `LD V0, 0xAB` then `FX75` (save `v0` to the RPL flags). -/
def c6rom : List Nat := [0x60, 0xAB, 0xF0, 0x75]

def c6state : Chip8 := runCycles defaultCfg 0 2 (load_rom defaultCfg init c6rom "rom").2

/-- C6: `reset` zeroes the RPL user flags — on a machine whose `rpl_flags[0]`
is `0xAB`, a reset leaves `0`, and in general `reset` writes `0` to every
cell regardless of the prior state, contradicting the claim (and the
source's own "persisted" comment). -/
theorem c6_reset_clears_rpl :
    c6state.rpl_flags 0 = 0xAB ∧
    (reset defaultCfg c6state).rpl_flags 0 = 0 ∧
    ∀ (cfg : EmulatorConfig) (s : Chip8) (idx : Nat),
      (reset cfg s).rpl_flags idx = 0 := by
  exact ⟨by decide, rfl, fun _ _ _ => rfl⟩

/-- `I = 0x208`, `v0 = 0`, draw one row (`0x80`: pixel (0,0)), then `00FF`. -/
def c7rom : List Nat := [0xA2, 0x08, 0x60, 0x00, 0xD0, 0x01, 0x00, 0xFF, 0x80]

def c7before : Chip8 := runCycles defaultCfg 0 3 (load_rom defaultCfg init c7rom "rom").2

def c7after : Chip8 := runCycles defaultCfg 0 1 c7before

/-- C7 (counterexample): executing `00FF` on a machine with pixel (0,0) lit
switches to hires but leaves the pixel lit — the claim says the framebuffer
is cleared as part of the mode switch. -/
theorem c7_counterexample :
    c7before.memory c7before.pc = 0x00 ∧
    c7before.memory (c7before.pc + 1) = 0xFF ∧
    c7before.display 0 0 = 1 ∧
    c7after.hires_mode = true ∧ c7after.display_width = 128 ∧
    c7after.display 0 0 = 1 := by decide

/-- C7 (amended): `00FE`/`00FF` set the mode and the active viewport and
advance `pc`, leaving every other field — in particular the framebuffer
contents — unchanged. -/
theorem c7_mode_switch_amended (cfg : EmulatorConfig) (rand : Nat)
    (s : Chip8) :
    execute cfg rand 0x00FE s =
      some { s with hires_mode := false, display_width := cfg.lores_width,
                    display_height := cfg.lores_height, pc := s.pc + 2 } ∧
    execute cfg rand 0x00FF s =
      some { s with hires_mode := true, display_width := cfg.hires_width,
                    display_height := cfg.hires_height, pc := s.pc + 2 } :=
  ⟨rfl, rfl⟩

/-- `I = 0xFFF`, `v0 = 1`, `FX1E` (so `I = 0x1000`), then `FX33`. -/
def c8rom : List Nat := [0xAF, 0xFF, 0x60, 0x01, 0xF0, 0x1E, 0xF0, 0x33]

def c8state : Chip8 := runCycles defaultCfg 0 3 (load_rom defaultCfg init c8rom "rom").2

/-- C8: with `i = 0x1000` (reachable, and within `0..=0xFFFF`), the `FX33`
store indexes `memory[0x1000]` on the 4096-byte array: the cycle faults
(`none`, the model of the uncaught Python `IndexError`) instead of clamping
or wrapping. -/
theorem c8_oob_crash :
    c8state.i = 0x1000 ∧ c8state.i ≤ 0xFFFF ∧
    c8state.memory c8state.pc = 0xF0 ∧
    c8state.memory (c8state.pc + 1) = 0x33 ∧
    cycle defaultCfg 0 c8state = none :=
  ⟨by decide, by decide, by decide, by decide, rfl⟩

/-- `JP 0x234`. -/
def c9rom : List Nat := [0x12, 0x34]

def c9state : Chip8 := runCycles defaultCfg 0 1 (load_rom defaultCfg init c9rom "rom").2

def bigRom : List Nat := List.replicate 3585 0

/-- C9 (counterexample): rejecting a 3585-byte ROM does NOT leave the machine
as it was: `load_rom` resets first, so the pre-call `pc = 0x234` becomes
`0x200`. -/
theorem c9_counterexample :
    c9state.pc = 0x234 ∧
    (load_rom defaultCfg c9state bigRom "big").1 = false ∧
    (load_rom defaultCfg c9state bigRom "big").2.pc = 0x200 ∧
    (load_rom defaultCfg c9state bigRom "big").2.rom_loaded = false := by
  have hbig : defaultCfg.memory_size - defaultCfg.program_start <
      bigRom.length := by
    show 4096 - 512 < (List.replicate 3585 0).length
    rw [List.length_replicate]
    decide
  have hload : load_rom defaultCfg c9state bigRom "big" =
      (false, reset defaultCfg c9state) := by
    simp [load_rom, hbig]
  refine ⟨by decide, ?_, ?_, ?_⟩ <;> rw [hload] <;> rfl

/-- C9 (amended): an oversized ROM is rejected (error reported, nothing
copied), but only after `reset` has run: the machine is left in the freshly
reset state, not in its pre-call state. -/
theorem c9_reject_after_reset_amended (cfg : EmulatorConfig) (s : Chip8)
    (data : List Nat) (name : String)
    (h : cfg.memory_size - cfg.program_start < data.length) :
    load_rom cfg s data name = (false, reset cfg s) := by
  simp [load_rom, h]

theorem c9_witness :
    defaultCfg.memory_size - defaultCfg.program_start < bigRom.length ∧
    load_rom defaultCfg c9state bigRom "big" =
      (false, reset defaultCfg c9state) := by
  have hbig : defaultCfg.memory_size - defaultCfg.program_start <
      bigRom.length := by
    show 4096 - 512 < (List.replicate 3585 0).length
    rw [List.length_replicate]
    decide
  exact ⟨hbig,
    c9_reject_after_reset_amended defaultCfg c9state bigRom "big" hbig⟩

/-- C10: `key_pressed` on a machine with no pending key-wait is the
identity: no register, `pc`, latch or any other field changes. -/
theorem c10_key_pressed_noop (k : Nat) (s : Chip8)
    (h : s.waiting_for_key = false) : key_pressed k s = s := by
  simp [key_pressed, h]

theorem c10_witness :
    boot.waiting_for_key = false ∧ key_pressed 7 boot = boot :=
  ⟨rfl, c10_key_pressed_noop 7 boot rfl⟩

end Chip8Emu
